import Mathlib

/-!
# Verification of the photo-frame selection-and-state engine

Shallow embedding of `src/sync_photos.py` (the Item Ledger, Selection
Engine, Sync Orchestrator and Sync History Log) and proofs of the spec's
claims about it.

Modelling conventions:
* SQLite rows become Lean structures; a table becomes a `List` of rows in
  insertion order (SQLite `rowid` order, which is the order rows were
  inserted since `id INTEGER PRIMARY KEY` aliases the rowid).
* Timestamps: `datetime.now()` is modelled by a `Date` value carrying the
  calendar year, the 1-based day of the year and an epoch-seconds field;
  ISO-format text timestamps are modelled by the epoch-seconds number.
* `strftime('%Y-W%W')` produces a string determined exactly by the pair
  (year, %W week number); we model the period key as that pair, since the
  zero-padded string encoding is injective on it.
* `random.random()` is modelled by an oracle `rng : ℕ → ℚ` giving the
  draw of each loop iteration, with `0 ≤ rng i < 1`.
* Python exceptions escaping `sync_photos` are modelled by the
  `RunOutcome.raised` constructor; `sys.exit(1)` in `main` becomes exit
  code 1, a normal return exit code 0.
-/

/-- Calendar timestamp as used by the engine: `year`/`doy` feed
`strftime`, `ts` models `int(time.time())` and the ISO text stamps. -/
structure Date where
  year : ℕ
  doy : ℕ
  ts : ℕ
deriving Repr, DecidableEq

/-- Number of leap years in `1..y-1` (proleptic Gregorian, as used by
Python's `datetime`). -/
def leapsBefore (y : ℕ) : ℕ :=
  (y - 1) / 4 - (y - 1) / 100 + (y - 1) / 400

/-- Days strictly before January 1 of year `y`, counting from
January 1 of year 1 (day 0). -/
def daysBeforeYear (y : ℕ) : ℕ :=
  365 * (y - 1) + leapsBefore y

/-- Weekday of the given day, 0 = Monday .. 6 = Sunday; January 1 of
year 1 is a Monday in the proleptic Gregorian calendar, matching
`datetime.date(1,1,1).weekday() == 0`. -/
def weekday (y doy : ℕ) : ℕ :=
  (daysBeforeYear y + (doy - 1)) % 7

/-- The `strftime('%W')` week number: weeks start on Monday and all days
of the year before the first Monday are week 0. -/
def weekW (y doy : ℕ) : ℕ :=
  let w := weekday y doy
  if w + 1 ≤ doy then (doy - w - 1) / 7 + 1 else 0

/-- The period key `strftime('%Y-W%W')` computed at lines 246 and 299 of
`sync_photos.py`, modelled as the pair (year, %W week number) that
determines the string. -/
def periodOf (d : Date) : ℕ × ℕ :=
  (d.year, weekW d.year d.doy)

/-- Gregorian leap-year test. -/
def isLeap (y : ℕ) : Bool :=
  y % 4 = 0 && (y % 100 ≠ 0 || y % 400 = 0)

/-- Modelled from the spec: number of ISO weeks in year `y` (53 iff
January 1 falls on a Thursday, or on a Wednesday in a leap year). -/
def isoWeeksInYear (y : ℕ) : ℕ :=
  if weekday y 1 = 3 ∨ (isLeap y ∧ weekday y 1 = 2) then 53 else 52

/-- Modelled from the spec: the ISO-week bucket of a timestamp, as the
pair (ISO week-based year, ISO week number). The spec's `periodOf` is
said to be "the ISO-week string"; this is that function, for comparison
with the code's `%W`-based `periodOf`. -/
def isoPeriodOf (d : Date) : ℕ × ℕ :=
  let wd := weekday d.year d.doy + 1
  let raw : ℤ := ((d.doy : ℤ) - wd + 10) / 7
  if raw < 1 then (d.year - 1, isoWeeksInYear (d.year - 1))
  else if (isoWeeksInYear d.year : ℤ) < raw then (d.year + 1, 1)
  else (d.year, raw.toNat)

/-- One row of the `items` table (`_init_db`, lines 188-202 of
`sync_photos.py`). `item_id` is `UNIQUE NOT NULL`; `last_shown_week` and
`last_shown_ts` are nullable. -/
structure LedgerEntry where
  item_id : ℕ
  filename : String
  type : String
  filesize : ℕ
  taken_time : ℕ
  first_seen : ℕ
  last_seen : ℕ
  times_shown : ℕ
  last_shown_week : Option (ℕ × ℕ)
  last_shown_ts : Option ℕ
deriving Repr, DecidableEq

/-- One record of the remote inventory as delivered by
`SynologyPhotosClient.get_all_items`: the fields `sync_photos` reads
(`id`, `filename`, `type`, `filesize`, `time`). -/
structure RemoteItem where
  id : ℕ
  filename : String
  type : String
  filesize : ℕ
  time : ℕ
deriving Repr, DecidableEq

/-- One row of the append-only `sync_history` table
(`PhotoDatabase.record_sync`, lines 314-321). -/
structure SyncRecord where
  sync_time : ℕ
  items_fetched : ℕ
  items_selected : ℕ
  items_downloaded : ℕ
  success : Bool
deriving Repr, DecidableEq

/-- The body of the `update_items` loop (lines 220-236): one
`INSERT ... ON CONFLICT(item_id) DO UPDATE SET last_seen, filename,
filesize`. On conflict only those three columns are rewritten; a fresh
row gets `times_shown` 0 and NULL show fields from the schema defaults. -/
def upsertOne (now : ℕ) (ledger : List LedgerEntry) (it : RemoteItem) :
    List LedgerEntry :=
  if it.id ∈ ledger.map LedgerEntry.item_id then
    ledger.map (fun e =>
      if e.item_id = it.id then
        { e with last_seen := now, filename := it.filename,
                 filesize := it.filesize }
      else e)
  else
    ledger ++ [{ item_id := it.id, filename := it.filename,
                 type := it.type, filesize := it.filesize,
                 taken_time := it.time, first_seen := now, last_seen := now,
                 times_shown := 0, last_shown_week := none,
                 last_shown_ts := none }]

/-- `PhotoDatabase.update_items` (lines 215-239): upsert every fetched
item, stamping `first_seen`/`last_seen` with the current time. -/
def update_items (ledger : List LedgerEntry) (items : List RemoteItem)
    (now : ℕ) : List LedgerEntry :=
  items.foldl (upsertOne now) ledger

/-- The eligibility query of `get_weighted_selection` (lines 247-251):
`SELECT ... FROM items WHERE type = 'photo' AND times_shown < ?`. -/
def eligible (ledger : List LedgerEntry) (max_show_count : ℕ) :
    List LedgerEntry :=
  ledger.filter (fun e =>
    e.type == "photo" && e.times_shown < max_show_count)

/-- The weight computation of `get_weighted_selection` (lines 258-272):
`weight = max(1, max_show_count - times_shown)`, doubled when
`last_shown_week != current_week` (a NULL `last_shown_week` always
differs from the current week string). Python's `max(1, x)` on a possibly
negative difference agrees with `max 1` of the truncated ℕ subtraction. -/
def itemWeight (max_show_count : ℕ) (current_week : ℕ × ℕ)
    (e : LedgerEntry) : ℕ :=
  let weight := max 1 (max_show_count - e.times_shown)
  if e.last_shown_week ≠ some current_week then weight * 2 else weight

/-- The `weighted_items` list built at lines 259-272: each eligible item
paired with its weight. -/
def weightedItems (ledger : List LedgerEntry) (max_show_count : ℕ)
    (current_week : ℕ × ℕ) : List (ℕ × ℕ) :=
  (eligible ledger max_show_count).map
    (fun e => (e.item_id, itemWeight max_show_count current_week e))

/-- Total weight of a candidate list (`sum(w for _, w in weighted_items)`,
line 276). -/
def sumW (l : List (ℕ × ℕ)) : ℕ :=
  (l.map (fun p => p.2)).sum

/-- The inner cumulative scan of the selection loop (lines 284-291): walk
the candidates accumulating `cumsum`, and at the first candidate with
`cumsum >= r` return it together with the remaining pool
(`weighted_items.pop(idx)`). `none` models the scan falling through
without a `break`. -/
def scanPick (r : ℚ) : List (ℕ × ℕ) → ℚ → Option (ℕ × ℕ × List (ℕ × ℕ))
  | [], _ => none
  | (i, w) :: rest, c =>
    if r ≤ c + (w : ℚ) then some (i, w, rest)
    else
      match scanPick r rest (c + (w : ℚ)) with
      | none => none
      | some (j, w2, rest2) => some (j, w2, (i, w) :: rest2)

/-- The outer selection loop (lines 278-291): `n` remaining iterations of
`for _ in range(min(count, len(weighted_items)))`, `k` the index into the
random stream, `totalW` the running total weight (`total_weight`). The
guard `totalW ≤ 0` is the early-stop branch at line 279; a fruitless scan
leaves the pool untouched and continues, as the Python `for`/`break`
does. -/
def selectIter (rng : ℕ → ℚ) : ℕ → ℕ → List (ℕ × ℕ) → ℤ → List ℕ
  | _, 0, _, _ => []
  | k, n + 1, items, totalW =>
    if totalW ≤ 0 then []
    else
      match scanPick (rng k * (totalW : ℚ)) items 0 with
      | none => selectIter rng (k + 1) n items totalW
      | some (i, w, rest) =>
        i :: selectIter rng (k + 1) n rest (totalW - (w : ℤ))

/-- `PhotoDatabase.get_weighted_selection` (lines 241-294) with the
current week made explicit: eligible pool, weights, then weighted
sampling without replacement. -/
def gwsWithWeek (ledger : List LedgerEntry) (count max_show_count : ℕ)
    (current_week : ℕ × ℕ) (rng : ℕ → ℚ) : List ℕ :=
  if eligible ledger max_show_count = [] then []
  else
    let weighted := weightedItems ledger max_show_count current_week
    selectIter rng 0 (min count weighted.length) weighted (sumW weighted : ℤ)

/-- `PhotoDatabase.get_weighted_selection` as called: it computes the
current week itself at line 246 (`datetime.now().strftime('%Y-W%W')`). -/
def get_weighted_selection (ledger : List LedgerEntry)
    (count max_show_count : ℕ) (now : Date) (rng : ℕ → ℚ) : List ℕ :=
  if eligible ledger max_show_count = [] then []
  else
    let weighted := weightedItems ledger max_show_count (periodOf now)
    selectIter rng 0 (min count weighted.length) weighted (sumW weighted : ℤ)

/-- The effect of one `mark_shown` `UPDATE` on a matching row: bump
`times_shown` by one and set the show stamps. -/
def shownStamp (week : ℕ × ℕ) (ts : ℕ) (e : LedgerEntry) : LedgerEntry :=
  { e with times_shown := e.times_shown + 1,
           last_shown_week := some week, last_shown_ts := some ts }

/-- One `UPDATE` of `mark_shown` (lines 302-309): bump `times_shown` and
set the show stamps on the row(s) with the given `item_id`. -/
def markOne (week : ℕ × ℕ) (ts : ℕ) (ledger : List LedgerEntry) (id : ℕ) :
    List LedgerEntry :=
  ledger.map (fun e => if e.item_id = id then shownStamp week ts e else e)

/-- `PhotoDatabase.mark_shown` with the week made explicit. -/
def markShownWithWeek (ledger : List LedgerEntry) (ids : List ℕ)
    (week : ℕ × ℕ) (ts : ℕ) : List LedgerEntry :=
  ids.foldl (markOne week ts) ledger

/-- `PhotoDatabase.mark_shown` (lines 296-312) as called: it computes the
current week itself at line 299 and the timestamp `int(time.time())`. -/
def mark_shown (ledger : List LedgerEntry) (ids : List ℕ) (now : Date) :
    List LedgerEntry :=
  ids.foldl (markOne (periodOf now) now.ts) ledger

/-- `PhotoDatabase.record_sync` (lines 314-321): append one row to
`sync_history`. -/
def record_sync (history : List SyncRecord)
    (ts fetched selected downloaded : ℕ) (success : Bool) :
    List SyncRecord :=
  history ++ [{ sync_time := ts, items_fetched := fetched,
                items_selected := selected, items_downloaded := downloaded,
                success := success }]

/-- The durable state owned by `PhotoDatabase`: the `items` table and the
append-only `sync_history` table. -/
structure SyncState where
  ledger : List LedgerEntry
  history : List SyncRecord
deriving Repr, DecidableEq

/-- The environment of one `sync_photos` run: the outcomes of the
external collaborators and the configuration. `initShareOk` models
`client.initialize_share()`; `items` is the list returned by
`client.get_all_items(...)`; `updateItemsOk` models whether the SQLite
write inside `db.update_items` succeeds (a `LedgerStorageFailure` during
reconciliation raises before any row is committed); `dl id` models
`client.download_item(id, path)` succeeding; `rng` is the
`random.random()` stream; `quota` is `photos_per_week` and `msc` is
`max_show_count`. -/
structure SyncEnv where
  initShareOk : Bool
  items : List RemoteItem
  updateItemsOk : Bool
  quota : ℕ
  msc : ℕ
  now : Date
  rng : ℕ → ℚ
  dl : ℕ → Bool

/-- Whether `sync_photos` returned normally or let an exception escape to
`main` (which then calls `sys.exit(1)`). -/
inductive RunOutcome where
  | ok
  | raised
deriving Repr, DecidableEq

/-- The ledger after the Reconciling step of a run that got that far. -/
def ledger1Of (env : SyncEnv) (st : SyncState) : List LedgerEntry :=
  update_items st.ledger env.items env.now.ts

/-- The ids chosen by the Selecting step of a run that got that far
(line 368: `db.get_weighted_selection(count=photos_per_week,
max_show_count=max_show_count)`). -/
def selectedOf (env : SyncEnv) (st : SyncState) : List ℕ :=
  get_weighted_selection (ledger1Of env st) env.quota env.msc env.now env.rng

/-- The download loop of lines 389-403: an id is downloaded iff it is a
key of `item_lookup` (built from the fetched items) and the download
succeeds; ids absent from the lookup are skipped by the `continue`. -/
def downloadCount (items : List RemoteItem) (dl : ℕ → Bool)
    (selected : List ℕ) : ℕ :=
  selected.countP (fun i => (items.map (fun it => it.id)).contains i && dl i)

/-- `sync_photos` (lines 334-419). The `try` body in order: share
initialization, fetch, `update_items`, `get_weighted_selection`, the
empty-selection early `return` at line 376, the download loop,
`mark_shown`, and the success `record_sync`; the `except` handler records
`(0, 0, 0, False)` and re-raises (lines 413-416). -/
def syncPhotos (env : SyncEnv) (st : SyncState) : SyncState × RunOutcome :=
  if env.initShareOk = false then
    ({ st with history := record_sync st.history env.now.ts 0 0 0 false },
     .raised)
  else if env.items = [] then
    ({ st with history := record_sync st.history env.now.ts 0 0 0 false },
     .raised)
  else if env.updateItemsOk = false then
    ({ st with history := record_sync st.history env.now.ts 0 0 0 false },
     .raised)
  else
    let ledger1 := ledger1Of env st
    let selected := selectedOf env st
    if selected = [] then
      ({ ledger := ledger1,
         history := record_sync st.history env.now.ts env.items.length 0 0
           false },
       .ok)
    else
      ({ ledger := mark_shown ledger1 selected env.now,
         history := record_sync st.history env.now.ts env.items.length
           selected.length (downloadCount env.items env.dl selected) true },
       .ok)

/-- `main` (lines 422-431): a raised exception is caught and turned into
`sys.exit(1)`; a normal return exits with status 0. -/
def mainExit (env : SyncEnv) (st : SyncState) : ℕ :=
  match (syncPhotos env st).2 with
  | .ok => 0
  | .raised => 1

/-! ## Helper lemmas on the sampling loop -/

theorem sumW_cons (p : ℕ × ℕ) (l : List (ℕ × ℕ)) :
    sumW (p :: l) = p.2 + sumW l := by
  simp [sumW]

theorem sumW_append (l₁ l₂ : List (ℕ × ℕ)) :
    sumW (l₁ ++ l₂) = sumW l₁ + sumW l₂ := by
  simp [sumW]

theorem length_le_sumW (l : List (ℕ × ℕ)) (hw : ∀ p ∈ l, 1 ≤ p.2) :
    l.length ≤ sumW l := by
  induction l with
  | nil => simp [sumW]
  | cons p t ih =>
    rw [sumW_cons, List.length_cons]
    have h1 : 1 ≤ p.2 := hw p (List.mem_cons_self p t)
    have h2 : t.length ≤ sumW t := ih fun q hq => hw q (List.mem_cons_of_mem p hq)
    omega

theorem scanPick_some (r : ℚ) :
    ∀ (l : List (ℕ × ℕ)) (c : ℚ), l ≠ [] → r ≤ c + (sumW l : ℚ) →
      ∃ i w rest, scanPick r l c = some (i, w, rest) := by
  intro l
  induction l with
  | nil => intro c h _; exact absurd rfl h
  | cons p t ih =>
    intro c _ hr
    obtain ⟨i, w⟩ := p
    by_cases h : r ≤ c + (w : ℚ)
    · exact ⟨i, w, t, by simp [scanPick, h]⟩
    · have ht : t ≠ [] := by
        rintro rfl
        apply h
        have hs : (sumW [(i, w)] : ℚ) = (w : ℚ) := by simp [sumW]
        rw [hs] at hr
        exact hr
      have hr' : r ≤ (c + (w : ℚ)) + (sumW t : ℚ) := by
        rw [sumW_cons] at hr
        push_cast at hr ⊢
        linarith
      obtain ⟨j, w2, rest2, hj⟩ := ih (c + (w : ℚ)) ht hr'
      exact ⟨j, w2, (i, w) :: rest2, by simp [scanPick, h, hj]⟩

theorem scanPick_shape (r : ℚ) :
    ∀ (l : List (ℕ × ℕ)) (c : ℚ) (i w : ℕ) (rest : List (ℕ × ℕ)),
      scanPick r l c = some (i, w, rest) →
      ∃ l₁ l₂, l = l₁ ++ (i, w) :: l₂ ∧ rest = l₁ ++ l₂ := by
  intro l
  induction l with
  | nil => intro c i w rest h; simp [scanPick] at h
  | cons p t ih =>
    intro c i w rest h
    obtain ⟨a, b⟩ := p
    by_cases hc : r ≤ c + (b : ℚ)
    · rw [scanPick, if_pos hc] at h
      obtain ⟨h1, h2, h3⟩ : a = i ∧ b = w ∧ t = rest := by
        simpa using h
      exact ⟨[], t, by simp [h1, h2], by simp [h3]⟩
    · rw [scanPick, if_neg hc] at h
      cases hscan : scanPick r t (c + (b : ℚ)) with
      | none => rw [hscan] at h; simp at h
      | some x =>
        obtain ⟨j, w2, rest2⟩ := x
        rw [hscan] at h
        obtain ⟨h1, h2, h3⟩ : j = i ∧ w2 = w ∧ (a, b) :: rest2 = rest := by
          simpa using h
        obtain ⟨l₁, l₂, hl, hr2⟩ := ih (c + (b : ℚ)) j w2 rest2 hscan
        refine ⟨(a, b) :: l₁, l₂, ?_, ?_⟩
        · simp [hl, h1, h2]
        · rw [← h3, hr2]
          simp

theorem scanPick_length {r : ℚ} {l : List (ℕ × ℕ)} {c : ℚ} {i w : ℕ}
    {rest : List (ℕ × ℕ)} (h : scanPick r l c = some (i, w, rest)) :
    rest.length + 1 = l.length := by
  obtain ⟨l₁, l₂, hl, hr⟩ := scanPick_shape r l c i w rest h
  subst hl hr
  simp
  omega

theorem scanPick_sumW {r : ℚ} {l : List (ℕ × ℕ)} {c : ℚ} {i w : ℕ}
    {rest : List (ℕ × ℕ)} (h : scanPick r l c = some (i, w, rest)) :
    sumW l = w + sumW rest := by
  obtain ⟨l₁, l₂, hl, hr⟩ := scanPick_shape r l c i w rest h
  subst hl hr
  rw [sumW_append, sumW_cons, sumW_append]
  ring

theorem scanPick_perm {r : ℚ} {l : List (ℕ × ℕ)} {c : ℚ} {i w : ℕ}
    {rest : List (ℕ × ℕ)} (h : scanPick r l c = some (i, w, rest)) :
    l.Perm ((i, w) :: rest) := by
  obtain ⟨l₁, l₂, hl, hr⟩ := scanPick_shape r l c i w rest h
  subst hl hr
  exact List.perm_middle

theorem selectIter_core (rng : ℕ → ℚ) (hrng : ∀ i, 0 ≤ rng i ∧ rng i < 1) :
    ∀ (n : ℕ) (k : ℕ) (l : List (ℕ × ℕ)), (∀ p ∈ l, 1 ≤ p.2) → n ≤ l.length →
      (selectIter rng k n l (sumW l : ℤ)).length = n ∧
      (∀ i ∈ selectIter rng k n l (sumW l : ℤ), i ∈ l.map Prod.fst) ∧
      ((l.map Prod.fst).Nodup → (selectIter rng k n l (sumW l : ℤ)).Nodup) := by
  intro n
  induction n with
  | zero => intro k l _ _; exact ⟨rfl, by simp [selectIter], by simp [selectIter]⟩
  | succ n ih =>
    intro k l hw hn
    have hlen : 1 ≤ l.length := le_trans (Nat.succ_le_succ (Nat.zero_le n)) hn
    have hpos : 1 ≤ sumW l := le_trans hlen (length_le_sumW l hw)
    have hguard : ¬((sumW l : ℤ) ≤ 0) := by
      omega
    have hlne : l ≠ [] := by
      intro h
      rw [h] at hlen
      simp at hlen
    have hr0 : 0 ≤ rng k * ((sumW l : ℤ) : ℚ) := by
      apply mul_nonneg (hrng k).1
      push_cast
      positivity
    have hrle : rng k * ((sumW l : ℤ) : ℚ) ≤ 0 + (sumW l : ℚ) := by
      have h1 : rng k * ((sumW l : ℤ) : ℚ) ≤ 1 * ((sumW l : ℤ) : ℚ) := by
        apply mul_le_mul_of_nonneg_right (le_of_lt (hrng k).2)
        push_cast
        positivity
      push_cast at h1 ⊢
      linarith
    obtain ⟨i, w, rest, hscan⟩ :=
      scanPick_some (rng k * ((sumW l : ℤ) : ℚ)) l 0 hlne hrle
    have hsum : (sumW l : ℤ) - (w : ℤ) = (sumW rest : ℤ) := by
      have := scanPick_sumW hscan
      omega
    have hunfold : selectIter rng k (n + 1) l (sumW l : ℤ) =
        i :: selectIter rng (k + 1) n rest (sumW rest : ℤ) := by
      rw [selectIter, if_neg hguard, hscan, ← hsum]
    have hwrest : ∀ p ∈ rest, 1 ≤ p.2 := by
      intro p hp
      apply hw
      have hperm := scanPick_perm hscan
      exact hperm.symm.subset (List.mem_cons_of_mem _ hp)
    have hnrest : n ≤ rest.length := by
      have := scanPick_length hscan
      omega
    obtain ⟨ihl, ihm, ihn⟩ := ih (k + 1) rest hwrest hnrest
    have hperm := scanPick_perm hscan
    have hmemi : i ∈ l.map Prod.fst :=
      List.mem_map.mpr ⟨(i, w), hperm.symm.subset (List.mem_cons_self _ _), rfl⟩
    have hsub : ∀ x ∈ rest.map Prod.fst, x ∈ l.map Prod.fst := by
      intro x hx
      obtain ⟨p, hp, hpx⟩ := List.mem_map.mp hx
      exact List.mem_map.mpr ⟨p, hperm.symm.subset (List.mem_cons_of_mem _ hp), hpx⟩
    refine ⟨?_, ?_, ?_⟩
    · rw [hunfold]
      simp [ihl]
    · intro x hx
      rw [hunfold] at hx
      rcases List.mem_cons.mp hx with h | h
      · rw [h]; exact hmemi
      · exact hsub x (ihm x h)
    · intro hnd
      have hndperm : (i :: rest.map Prod.fst).Nodup := by
        have : l.map Prod.fst = (l.map Prod.fst) := rfl
        have hp2 : (l.map Prod.fst).Perm (((i, w) :: rest).map Prod.fst) :=
          hperm.map Prod.fst
        exact hp2.nodup_iff.mp hnd
      rw [hunfold]
      refine List.nodup_cons.mpr ⟨?_, ihn hndperm.of_cons⟩
      intro hmem
      exact (List.nodup_cons.mp hndperm).1 (ihm i hmem)

/-! ## Eligibility and weights -/

theorem itemWeight_pos (msc : ℕ) (cw : ℕ × ℕ) (e : LedgerEntry) :
    1 ≤ itemWeight msc cw e := by
  rw [itemWeight]
  split
  · have : 1 ≤ max 1 (msc - e.times_shown) := le_max_left 1 _
    omega
  · exact le_max_left 1 _

theorem mem_eligible {ledger : List LedgerEntry} {msc : ℕ} {e : LedgerEntry} :
    e ∈ eligible ledger msc ↔
      e ∈ ledger ∧ e.type = "photo" ∧ e.times_shown < msc := by
  simp [eligible, List.mem_filter, and_assoc]

theorem weightedItems_fst (ledger : List LedgerEntry) (msc : ℕ)
    (cw : ℕ × ℕ) :
    (weightedItems ledger msc cw).map Prod.fst =
      (eligible ledger msc).map LedgerEntry.item_id := by
  rw [weightedItems, List.map_map]
  rfl

theorem eligible_ids_nodup {ledger : List LedgerEntry} (msc : ℕ)
    (hno : (ledger.map LedgerEntry.item_id).Nodup) :
    ((eligible ledger msc).map LedgerEntry.item_id).Nodup := by
  apply List.Nodup.sublist _ hno
  exact List.Sublist.map _ (List.filter_sublist ledger)

/-- C3: the selection returns a duplicate-free list of length
`min(quota, |eligible|)` whose every id names an eligible ledger entry
(a `photo` with `times_shown < max_show_count`) at call time. -/
theorem selection_contract (ledger : List LedgerEntry) (count msc : ℕ)
    (now : Date) (rng : ℕ → ℚ)
    (hno : (ledger.map LedgerEntry.item_id).Nodup)
    (hrng : ∀ i, 0 ≤ rng i ∧ rng i < 1) :
    (get_weighted_selection ledger count msc now rng).Nodup ∧
    (get_weighted_selection ledger count msc now rng).length =
      min count (eligible ledger msc).length ∧
    ∀ id ∈ get_weighted_selection ledger count msc now rng,
      ∃ e ∈ ledger, e.item_id = id ∧ e.type = "photo" ∧
        e.times_shown < msc := by
  by_cases he : eligible ledger msc = []
  · rw [get_weighted_selection, if_pos he]
    simp [he]
  · rw [get_weighted_selection, if_neg he]
    have hw : ∀ p ∈ weightedItems ledger msc (periodOf now), 1 ≤ p.2 := by
      intro p hp
      obtain ⟨e, _, hpe⟩ := List.mem_map.mp hp
      rw [← hpe]
      exact itemWeight_pos msc (periodOf now) e
    have hn : min count (weightedItems ledger msc (periodOf now)).length ≤
        (weightedItems ledger msc (periodOf now)).length := min_le_right _ _
    obtain ⟨hlen, hmem, hnd⟩ := selectIter_core rng hrng
      (min count (weightedItems ledger msc (periodOf now)).length) 0
      (weightedItems ledger msc (periodOf now)) hw hn
    have hflen : (weightedItems ledger msc (periodOf now)).length =
        (eligible ledger msc).length := by
      rw [weightedItems, List.length_map]
    refine ⟨?_, ?_, ?_⟩
    · apply hnd
      rw [weightedItems_fst]
      exact eligible_ids_nodup msc hno
    · rw [hlen, hflen]
    · intro id hid
      have := hmem id hid
      rw [weightedItems_fst] at this
      obtain ⟨e, hel, heid⟩ := List.mem_map.mp this
      obtain ⟨hl, ht, hs⟩ := mem_eligible.mp hel
      exact ⟨e, hl, heid, ht, hs⟩

/-- C9: in the selection loop every candidate weight is at least 1, so
while candidates remain the running total weight is strictly positive
(the early-stop branch at line 279 cannot fire), every draw's cumulative
scan picks and removes exactly one candidate, and hence the loop runs to
its full iteration count. -/
theorem selection_loop_total (rng : ℕ → ℚ) (l : List (ℕ × ℕ)) (n k : ℕ)
    (hw : ∀ p ∈ l, 1 ≤ p.2) (hn : n ≤ l.length)
    (hrng : ∀ i, 0 ≤ rng i ∧ rng i < 1) :
    (l ≠ [] → 0 < (sumW l : ℤ)) ∧
    (selectIter rng k n l (sumW l : ℤ)).length = n ∧
    ∀ r : ℚ, 0 ≤ r → r ≤ (sumW l : ℚ) → l ≠ [] →
      ∃ i w rest, scanPick r l 0 = some (i, w, rest) ∧
        rest.length + 1 = l.length := by
  refine ⟨?_, (selectIter_core rng hrng n k l hw hn).1, ?_⟩
  · intro hne
    have h1 : 1 ≤ l.length := by
      cases l with
      | nil => exact absurd rfl hne
      | cons p t => simp
    have := length_le_sumW l hw
    omega
  · intro r _ hle hne
    have hr' : r ≤ 0 + (sumW l : ℚ) := by linarith
    obtain ⟨i, w, rest, hscan⟩ := scanPick_some r l 0 hne hr'
    exact ⟨i, w, rest, hscan, scanPick_length hscan⟩

/-! ## Ledger upsert lemmas -/

/-- The fields of a ledger row that an upsert must never change: all but
`last_seen`, `filename` and `filesize`. -/
def projShow (e : LedgerEntry) :
    ℕ × String × ℕ × ℕ × ℕ × Option (ℕ × ℕ) × Option ℕ :=
  (e.item_id, e.type, e.taken_time, e.first_seen, e.times_shown,
   e.last_shown_week, e.last_shown_ts)

theorem update_items_nil (ledger : List LedgerEntry) (now : ℕ) :
    update_items ledger [] now = ledger := rfl

theorem update_items_cons (ledger : List LedgerEntry) (it : RemoteItem)
    (rest : List RemoteItem) (now : ℕ) :
    update_items ledger (it :: rest) now =
      update_items (upsertOne now ledger it) rest now := rfl

theorem upsertOne_ids (now : ℕ) (ledger : List LedgerEntry)
    (it : RemoteItem) :
    (upsertOne now ledger it).map LedgerEntry.item_id =
      if it.id ∈ ledger.map LedgerEntry.item_id
      then ledger.map LedgerEntry.item_id
      else ledger.map LedgerEntry.item_id ++ [it.id] := by
  rw [upsertOne]
  split
  · rw [List.map_map]
    apply List.map_congr_left
    intro e _
    by_cases h : e.item_id = it.id <;> simp [Function.comp, h]
  · simp

theorem upsertOne_ids_nodup (now : ℕ) (ledger : List LedgerEntry)
    (it : RemoteItem) (hno : (ledger.map LedgerEntry.item_id).Nodup) :
    ((upsertOne now ledger it).map LedgerEntry.item_id).Nodup := by
  rw [upsertOne_ids]
  split
  · exact hno
  · rename_i hmem
    simp [List.nodup_append, hno, hmem]

theorem length_le_upsertOne (now : ℕ) (ledger : List LedgerEntry)
    (it : RemoteItem) :
    ledger.length ≤ (upsertOne now ledger it).length := by
  rw [upsertOne]
  split <;> simp

theorem upsertOne_projShow (now : ℕ) (ledger : List LedgerEntry)
    (it : RemoteItem) :
    ((upsertOne now ledger it).map projShow).take ledger.length =
      ledger.map projShow := by
  rw [upsertOne]
  split
  · rw [List.map_map]
    have hmap : ledger.map
        (projShow ∘ fun e =>
          if e.item_id = it.id then
            { e with last_seen := now, filename := it.filename,
                     filesize := it.filesize }
          else e) = ledger.map projShow := by
      apply List.map_congr_left
      intro e _
      by_cases h : e.item_id = it.id <;> simp [Function.comp, h, projShow]
    rw [hmap, ← List.length_map ledger projShow, List.take_length]
  · rw [List.map_append, ← List.length_map ledger projShow, List.take_left]

theorem update_items_ids_nodup (now : ℕ) :
    ∀ (items : List RemoteItem) (ledger : List LedgerEntry),
      (ledger.map LedgerEntry.item_id).Nodup →
      ((update_items ledger items now).map LedgerEntry.item_id).Nodup := by
  intro items
  induction items with
  | nil => intro ledger h; exact h
  | cons it rest ih =>
    intro ledger h
    rw [update_items_cons]
    exact ih _ (upsertOne_ids_nodup now ledger it h)

theorem update_items_projShow (now : ℕ) :
    ∀ (items : List RemoteItem) (ledger : List LedgerEntry),
      ((update_items ledger items now).map projShow).take ledger.length =
        ledger.map projShow := by
  intro items
  induction items with
  | nil =>
    intro ledger
    rw [update_items_nil, ← List.length_map ledger projShow, List.take_length]
  | cons it rest ih =>
    intro ledger
    rw [update_items_cons]
    have hle : ledger.length ≤ (upsertOne now ledger it).length :=
      length_le_upsertOne now ledger it
    have h1 := ih (upsertOne now ledger it)
    have h2 := upsertOne_projShow now ledger it
    conv_lhs =>
      rw [show ledger.length =
            min ledger.length (upsertOne now ledger it).length from
          (min_eq_left hle).symm,
        ← List.take_take]
    rw [h1, h2]

/-- C5: re-upserting known ids never creates a second ledger row, and an
upsert rewrites only `last_seen`, `filename` and `filesize` of existing
rows: `item_id`, `type`, `taken_time`, `first_seen`, `times_shown`,
`last_shown_week` and `last_shown_ts` of every pre-existing row are
unchanged by `update_items`. -/
theorem upsert_frame (now : ℕ) (items : List RemoteItem)
    (ledger : List LedgerEntry)
    (hno : (ledger.map LedgerEntry.item_id).Nodup) :
    ((update_items ledger items now).map LedgerEntry.item_id).Nodup ∧
    ((update_items ledger items now).map projShow).take ledger.length =
      ledger.map projShow ∧
    ∀ it : RemoteItem, it.id ∈ ledger.map LedgerEntry.item_id →
      (upsertOne now ledger it).length = ledger.length := by
  refine ⟨update_items_ids_nodup now items ledger hno,
    update_items_projShow now items ledger, ?_⟩
  intro it hmem
  rw [upsertOne, if_pos hmem, List.length_map]

/-! ## mark_shown lemmas -/

theorem markShownWithWeek_nil (ledger : List LedgerEntry) (week : ℕ × ℕ)
    (ts : ℕ) : markShownWithWeek ledger [] week ts = ledger := rfl

theorem markShownWithWeek_eq (week : ℕ × ℕ) (ts : ℕ) :
    ∀ (ids : List ℕ), ids.Nodup → ∀ ledger : List LedgerEntry,
      markShownWithWeek ledger ids week ts =
        ledger.map (fun e =>
          if e.item_id ∈ ids then shownStamp week ts e else e) := by
  intro ids
  induction ids with
  | nil =>
    intro _ ledger
    simp [markShownWithWeek]
  | cons id rest ih =>
    intro h ledger
    have hstep : markShownWithWeek ledger (id :: rest) week ts =
        markShownWithWeek (markOne week ts ledger id) rest week ts := rfl
    rw [hstep, ih (List.Nodup.of_cons h), markOne, List.map_map]
    apply List.map_congr_left
    intro e _
    by_cases hid : e.item_id = id
    · have hnot : id ∉ rest := (List.nodup_cons.mp h).1
      simp [Function.comp, hid, shownStamp, hnot]
    · simp [Function.comp, hid]

theorem mark_shown_eq_withWeek (ledger : List LedgerEntry) (ids : List ℕ)
    (now : Date) :
    mark_shown ledger ids now =
      markShownWithWeek ledger ids (periodOf now) now.ts := rfl

/-! ## Orchestration-run lemmas -/

theorem syncPhotos_run (env : SyncEnv) (st : SyncState)
    (h1 : env.initShareOk = true) (h2 : env.items ≠ [])
    (h3 : env.updateItemsOk = true) (h4 : selectedOf env st ≠ []) :
    syncPhotos env st =
      ({ ledger := mark_shown (ledger1Of env st) (selectedOf env st) env.now,
         history := record_sync st.history env.now.ts env.items.length
           (selectedOf env st).length
           (downloadCount env.items env.dl (selectedOf env st)) true },
       .ok) := by
  rw [syncPhotos]
  rw [if_neg (by simp [h1]), if_neg h2,
    if_neg (by simp [h3]), if_neg h4]

/-- The state after a run that reaches Finalizing: the ledger is the
reconciled ledger with every selected row stamped once, and one success
record is appended. -/
theorem sync_run_state (env : SyncEnv) (st : SyncState)
    (hno : (st.ledger.map LedgerEntry.item_id).Nodup)
    (hrng : ∀ i, 0 ≤ env.rng i ∧ env.rng i < 1)
    (h1 : env.initShareOk = true) (h2 : env.items ≠ [])
    (h3 : env.updateItemsOk = true) (h4 : selectedOf env st ≠ []) :
    (selectedOf env st).Nodup ∧
    (syncPhotos env st).1.ledger =
      (ledger1Of env st).map (fun e =>
        if e.item_id ∈ selectedOf env st
        then shownStamp (periodOf env.now) env.now.ts e else e) ∧
    (syncPhotos env st).1.history =
      record_sync st.history env.now.ts env.items.length
        (selectedOf env st).length
        (downloadCount env.items env.dl (selectedOf env st)) true := by
  have hnd1 : ((ledger1Of env st).map LedgerEntry.item_id).Nodup :=
    update_items_ids_nodup env.now.ts env.items st.ledger hno
  have hselnd : (selectedOf env st).Nodup :=
    (selection_contract (ledger1Of env st) env.quota env.msc env.now env.rng
      hnd1 hrng).1
  have hrun := syncPhotos_run env st h1 h2 h3 h4
  refine ⟨hselnd, ?_, ?_⟩
  · rw [hrun]
    exact markShownWithWeek_eq (periodOf env.now) env.now.ts
      (selectedOf env st) hselnd (ledger1Of env st)
  · rw [hrun]

/-- C8: a run whose Inventory Source yields zero items fails (raises, so
the process exits 1), appends the SyncRecord `(0, 0, 0, success=false)`,
and leaves the `items` table untouched. -/
theorem zero_items_failure (env : SyncEnv) (st : SyncState)
    (h1 : env.initShareOk = true) (h2 : env.items = []) :
    (syncPhotos env st).1.ledger = st.ledger ∧
    (syncPhotos env st).1.history =
      record_sync st.history env.now.ts 0 0 0 false ∧
    (syncPhotos env st).2 = .raised ∧
    mainExit env st = 1 := by
  rw [mainExit, syncPhotos,
    if_neg (by simp [h1]), if_pos h2]
  exact ⟨rfl, rfl, rfl, rfl⟩

/-- A run on which fetch succeeds with one photo but `max_show_count = 0`
makes every item ineligible, so the selection comes back empty: the code
records a failure SyncRecord yet returns normally. -/
def envEmptySelection : SyncEnv :=
  { initShareOk := true, items := [⟨1, "a.jpg", "photo", 10, 0⟩],
    updateItemsOk := true, quota := 5, msc := 0, now := ⟨2026, 1, 77⟩,
    rng := fun _ => 0, dl := fun _ => true }

/-- C1 counterexample: this run reaches the Failed outcome (it appends a
SyncRecord with `success = false`), yet the process exits with status 0,
because the empty-selection branch returns normally instead of raising. -/
theorem failed_run_exits_zero :
    (syncPhotos envEmptySelection ⟨[], []⟩).1.history =
      [⟨77, 1, 0, 0, false⟩] ∧
    (syncPhotos envEmptySelection ⟨[], []⟩).2 = .ok ∧
    mainExit envEmptySelection ⟨[], []⟩ = 0 := by
  decide

/-- C1 amended: a run that fails by exception — share initialization
failure, zero items fetched, or a ledger write failure — exits non-zero,
and a run that returns normally (Done, but also the empty-selection
failure, which records `success=false` and then returns) exits zero. -/
theorem exit_code_characterization (env : SyncEnv) (st : SyncState) :
    mainExit env st = 0 ↔
      env.initShareOk = true ∧ env.items ≠ [] ∧
        env.updateItemsOk = true := by
  cases h1 : env.initShareOk with
  | false => simp [mainExit, syncPhotos, h1]
  | true =>
    by_cases h2 : env.items = []
    · simp [mainExit, syncPhotos, h1, h2]
    · cases h3 : env.updateItemsOk with
      | false => simp [mainExit, syncPhotos, h1, h2, h3]
      | true =>
        by_cases h4 : selectedOf env st = [] <;>
          simp [mainExit, syncPhotos, h1, h2, h3, h4]

/-- C4: in a run that reaches Finalizing, `mark_shown` stamps every
selected id — incrementing its `times_shown` by exactly 1 and setting
`last_shown_week`/`last_shown_ts` — independently of the download
outcomes, while the appended SyncRecord counts as `items_downloaded`
exactly the selected ids whose download was attempted and succeeded. -/
theorem finalize_marks_all_selected (env : SyncEnv) (st : SyncState)
    (hno : (st.ledger.map LedgerEntry.item_id).Nodup)
    (hrng : ∀ i, 0 ≤ env.rng i ∧ env.rng i < 1)
    (h1 : env.initShareOk = true) (h2 : env.items ≠ [])
    (h3 : env.updateItemsOk = true) (h4 : selectedOf env st ≠ []) :
    (syncPhotos env st).1.ledger =
      (ledger1Of env st).map (fun e =>
        if e.item_id ∈ selectedOf env st
        then shownStamp (periodOf env.now) env.now.ts e else e) ∧
    (∀ id ∈ selectedOf env st, ∀ e ∈ ledger1Of env st, e.item_id = id →
      ∃ e' ∈ (syncPhotos env st).1.ledger, e'.item_id = id ∧
        e'.times_shown = e.times_shown + 1 ∧
        e'.last_shown_week = some (periodOf env.now) ∧
        e'.last_shown_ts = some env.now.ts) ∧
    (syncPhotos env st).1.history =
      record_sync st.history env.now.ts env.items.length
        (selectedOf env st).length
        (downloadCount env.items env.dl (selectedOf env st)) true := by
  obtain ⟨hselnd, hledger, hhist⟩ :=
    sync_run_state env st hno hrng h1 h2 h3 h4
  refine ⟨hledger, ?_, hhist⟩
  intro id hid e he heid
  refine ⟨shownStamp (periodOf env.now) env.now.ts e, ?_, ?_, rfl, rfl, rfl⟩
  · rw [hledger]
    apply List.mem_map.mpr
    refine ⟨e, he, ?_⟩
    rw [if_pos (by rw [heid]; exact hid)]
  · rw [shownStamp, heid]

/-- C10: a selected id absent from the fetched inventory is skipped by the
download loop — the run's result does not depend on the download oracle at
that id, and the id contributes nothing to `items_downloaded` — yet the id
is still counted in `items_selected` and still marked shown. -/
theorem missing_item_skipped (env : SyncEnv) (st : SyncState) (id : ℕ)
    (dl2 : ℕ → Bool)
    (hno : (st.ledger.map LedgerEntry.item_id).Nodup)
    (hrng : ∀ i, 0 ≤ env.rng i ∧ env.rng i < 1)
    (h1 : env.initShareOk = true) (h2 : env.items ≠ [])
    (h3 : env.updateItemsOk = true)
    (hid : id ∈ selectedOf env st)
    (habs : id ∉ env.items.map RemoteItem.id)
    (hdl : ∀ j, j ≠ id → dl2 j = env.dl j) :
    syncPhotos { env with dl := dl2 } st = syncPhotos env st ∧
    downloadCount env.items env.dl (selectedOf env st) =
      downloadCount env.items env.dl ((selectedOf env st).erase id) ∧
    (∀ e ∈ ledger1Of env st, e.item_id = id →
      ∃ e' ∈ (syncPhotos env st).1.ledger, e'.item_id = id ∧
        e'.times_shown = e.times_shown + 1) ∧
    (syncPhotos env st).1.history =
      record_sync st.history env.now.ts env.items.length
        (selectedOf env st).length
        (downloadCount env.items env.dl (selectedOf env st)) true := by
  have h4 : selectedOf env st ≠ [] := List.ne_nil_of_mem hid
  have hcont : ((env.items.map RemoteItem.id).contains id) = false := by
    simpa using habs
  obtain ⟨hselnd, hledger, hhist⟩ :=
    sync_run_state env st hno hrng h1 h2 h3 h4
  refine ⟨?_, ?_, ?_, hhist⟩
  · have hrunA := syncPhotos_run env st h1 h2 h3 h4
    have hrunB := syncPhotos_run { env with dl := dl2 } st h1 h2 h3 h4
    rw [hrunA, hrunB]
    have hdc : downloadCount env.items dl2 (selectedOf env st) =
        downloadCount env.items env.dl (selectedOf env st) := by
      rw [downloadCount, downloadCount]
      apply List.countP_congr
      intro i hi
      by_cases hieq : i = id
      · rw [hieq, hcont]
        simp
      · rw [hdl i hieq]
    show (({ ledger := mark_shown (ledger1Of env st) (selectedOf env st)
              env.now,
             history := record_sync st.history env.now.ts env.items.length
              (selectedOf env st).length
              (downloadCount env.items dl2 (selectedOf env st)) true } :
            SyncState),
          RunOutcome.ok) =
        (({ ledger := mark_shown (ledger1Of env st) (selectedOf env st)
              env.now,
            history := record_sync st.history env.now.ts env.items.length
             (selectedOf env st).length
             (downloadCount env.items env.dl (selectedOf env st)) true } :
           SyncState),
         RunOutcome.ok)
    rw [hdc]
  · have hperm : (selectedOf env st).Perm
        (id :: (selectedOf env st).erase id) :=
      List.perm_cons_erase hid
    rw [downloadCount, downloadCount, hperm.countP_eq, List.countP_cons]
    rw [hcont]
    simp
  · intro e he heid
    refine ⟨shownStamp (periodOf env.now) env.now.ts e, ?_, ?_, rfl⟩
    · rw [hledger]
      apply List.mem_map.mpr
      refine ⟨e, he, ?_⟩
      rw [if_pos (by rw [heid]; exact hid)]
    · rw [shownStamp, heid]

/-- A run on which fetch succeeds with one photo and then the ledger
write during reconciliation fails: the exception handler records
`(0, 0, 0, False)`. -/
def envLedgerFailure : SyncEnv :=
  { initShareOk := true, items := [⟨1, "a.jpg", "photo", 10, 0⟩],
    updateItemsOk := false, quota := 5, msc := 10, now := ⟨2026, 1, 77⟩,
    rng := fun _ => 0, dl := fun _ => true }

/-- C2 counterexample: a run that fails after fetching 1 item does not
record `items_fetched = 1` — the exception handler always appends the
all-zero failure record. -/
theorem failure_record_not_counters :
    envLedgerFailure.items.length = 1 ∧
    (syncPhotos envLedgerFailure ⟨[], []⟩).2 = .raised ∧
    (syncPhotos envLedgerFailure ⟨[], []⟩).1.history =
      [⟨77, 0, 0, 0, false⟩] := by
  decide

/-- C2 amended: every failed run appends exactly one `success=false`
SyncRecord, but its counters are all zero on every exception path —
whatever was fetched — and only the empty-selection failure path records
the fetched count (with zero selected/downloaded). -/
theorem failure_record_shape (env : SyncEnv) (st : SyncState) :
    (env.initShareOk = false →
      (syncPhotos env st).1.history =
        record_sync st.history env.now.ts 0 0 0 false) ∧
    (env.initShareOk = true → env.items = [] →
      (syncPhotos env st).1.history =
        record_sync st.history env.now.ts 0 0 0 false) ∧
    (env.initShareOk = true → env.items ≠ [] → env.updateItemsOk = false →
      (syncPhotos env st).1.history =
        record_sync st.history env.now.ts 0 0 0 false) ∧
    (env.initShareOk = true → env.items ≠ [] → env.updateItemsOk = true →
      selectedOf env st = [] →
      (syncPhotos env st).1.history =
        record_sync st.history env.now.ts env.items.length 0 0 false) := by
  refine ⟨?_, ?_, ?_, ?_⟩
  · intro h1
    rw [syncPhotos, if_pos h1]
  · intro h1 h2
    rw [syncPhotos, if_neg (by simp [h1]), if_pos h2]
  · intro h1 h2 h3
    rw [syncPhotos, if_neg (by simp [h1]), if_neg h2, if_pos h3]
  · intro h1 h2 h3 h4
    rw [syncPhotos, if_neg (by simp [h1]), if_neg h2,
      if_neg (by simp [h3]), if_pos h4]

/-- C6: the sampling weight of every eligible item is
`max(1, maxShowCount - timesShown)`, and it is doubled exactly when the
item's `last_shown_week` differs from the current period (including when
it is NULL). -/
theorem weight_formula (msc : ℕ) (cw : ℕ × ℕ) (ledger : List LedgerEntry)
    (e : LedgerEntry) (he : e ∈ eligible ledger msc) :
    (e.item_id,
      if e.last_shown_week ≠ some cw then 2 * max 1 (msc - e.times_shown)
      else max 1 (msc - e.times_shown)) ∈ weightedItems ledger msc cw ∧
    (itemWeight msc cw e = 2 * max 1 (msc - e.times_shown) ↔
      e.last_shown_week ≠ some cw) := by
  have hw : itemWeight msc cw e =
      if e.last_shown_week ≠ some cw then 2 * max 1 (msc - e.times_shown)
      else max 1 (msc - e.times_shown) := by
    rw [itemWeight]
    split
    · ring
    · rfl
  constructor
  · rw [weightedItems]
    exact List.mem_map.mpr ⟨e, he, by rw [hw]⟩
  · constructor
    · intro heq
      by_contra hne
      rw [hw, if_neg (not_not_intro hne)] at heq
      have h1 : 1 ≤ max 1 (msc - e.times_shown) := le_max_left 1 _
      omega
    · intro hne
      rw [hw, if_pos hne]

/-- C7 counterexample: on 2026-01-01, a Thursday, the code's
`strftime('%Y-W%W')` period key is week 00 of 2026 — all days before the
year's first Monday land in week 0 — while the ISO-week bucket of that
timestamp is week 1 of 2026, so the stored period key is not the ISO
week. -/
theorem period_key_not_iso :
    periodOf ⟨2026, 1, 0⟩ = (2026, 0) ∧
    isoPeriodOf ⟨2026, 1, 0⟩ = (2026, 1) ∧
    periodOf ⟨2026, 1, 0⟩ ≠ isoPeriodOf ⟨2026, 1, 0⟩ := by
  decide

/-- C7 amended: the selection operation and `mark_shown` both derive
their period key from the one pure function `periodOf`, which is the
`%W` Monday-start week number paired with the calendar year — not the
ISO week. -/
theorem period_key_same_function (ledger : List LedgerEntry)
    (ids : List ℕ) (count msc : ℕ) (now : Date) (rng : ℕ → ℚ) :
    get_weighted_selection ledger count msc now rng =
      gwsWithWeek ledger count msc (periodOf now) rng ∧
    mark_shown ledger ids now =
      markShownWithWeek ledger ids (periodOf now) now.ts ∧
    periodOf now = (now.year, weekW now.year now.doy) :=
  ⟨rfl, rfl, rfl⟩

/-! ## Concrete fixtures and witnesses -/

/-- A fresh photo row, one show below nothing: `times_shown = 0`. -/
def entryA : LedgerEntry := ⟨1, "a.jpg", "photo", 10, 0, 5, 5, 0, none, none⟩

/-- A second fresh photo row. -/
def entryB : LedgerEntry := ⟨2, "b.jpg", "photo", 10, 0, 5, 5, 0, none, none⟩

/-- A constant random stream drawing 1/2 each iteration. -/
def rngHalf : ℕ → ℚ := fun _ => 1/2

theorem rngHalf_range : ∀ i, 0 ≤ rngHalf i ∧ rngHalf i < 1 :=
  fun _ => ⟨by norm_num [rngHalf], by norm_num [rngHalf]⟩

theorem selection_contract_witness :
    (get_weighted_selection [entryA, entryB] 2 10 ⟨2026, 1, 0⟩ rngHalf).Nodup ∧
    (get_weighted_selection [entryA, entryB] 2 10 ⟨2026, 1, 0⟩
        rngHalf).length = min 2 (eligible [entryA, entryB] 10).length ∧
    ∀ id ∈ get_weighted_selection [entryA, entryB] 2 10 ⟨2026, 1, 0⟩ rngHalf,
      ∃ e ∈ [entryA, entryB], e.item_id = id ∧ e.type = "photo" ∧
        e.times_shown < 10 :=
  selection_contract [entryA, entryB] 2 10 ⟨2026, 1, 0⟩ rngHalf (by decide)
    rngHalf_range

theorem selection_loop_total_witness :
    (([(1, 20), (2, 20)] : List (ℕ × ℕ)) ≠ [] →
      0 < (sumW [(1, 20), (2, 20)] : ℤ)) ∧
    (selectIter rngHalf 0 2 [(1, 20), (2, 20)]
      (sumW [(1, 20), (2, 20)] : ℤ)).length = 2 ∧
    ∀ r : ℚ, 0 ≤ r → r ≤ (sumW [(1, 20), (2, 20)] : ℚ) →
      ([(1, 20), (2, 20)] : List (ℕ × ℕ)) ≠ [] →
      ∃ i w rest, scanPick r [(1, 20), (2, 20)] 0 = some (i, w, rest) ∧
        rest.length + 1 = ([(1, 20), (2, 20)] : List (ℕ × ℕ)).length :=
  selection_loop_total rngHalf [(1, 20), (2, 20)] 2 0 (by decide) (by decide)
    rngHalf_range

theorem upsert_frame_witness :
    ((update_items [entryA] [⟨1, "c.jpg", "photo", 11, 0⟩] 9).map
      LedgerEntry.item_id).Nodup ∧
    ((update_items [entryA] [⟨1, "c.jpg", "photo", 11, 0⟩] 9).map
      projShow).take ([entryA] : List LedgerEntry).length =
      ([entryA] : List LedgerEntry).map projShow ∧
    ∀ it : RemoteItem, it.id ∈ ([entryA] : List LedgerEntry).map
        LedgerEntry.item_id →
      (upsertOne 9 [entryA] it).length = ([entryA] : List LedgerEntry).length :=
  upsert_frame 9 [⟨1, "c.jpg", "photo", 11, 0⟩] [entryA] (by decide)

theorem weight_formula_witness :
    (entryA.item_id,
      if entryA.last_shown_week ≠ some (2026, 0)
      then 2 * max 1 (10 - entryA.times_shown)
      else max 1 (10 - entryA.times_shown)) ∈
        weightedItems [entryA] 10 (2026, 0) ∧
    (itemWeight 10 (2026, 0) entryA = 2 * max 1 (10 - entryA.times_shown) ↔
      entryA.last_shown_week ≠ some (2026, 0)) :=
  weight_formula 10 (2026, 0) [entryA] entryA (by decide)

/-- A run whose fetch returns nothing. -/
def envNoItems : SyncEnv :=
  { initShareOk := true, items := [], updateItemsOk := true, quota := 5,
    msc := 10, now := ⟨2026, 1, 77⟩, rng := fun _ => 0,
    dl := fun _ => true }

theorem zero_items_failure_witness :
    (syncPhotos envNoItems ⟨[], []⟩).1.ledger = [] ∧
    (syncPhotos envNoItems ⟨[], []⟩).1.history =
      record_sync [] 77 0 0 0 false ∧
    (syncPhotos envNoItems ⟨[], []⟩).2 = .raised ∧
    mainExit envNoItems ⟨[], []⟩ = 1 :=
  zero_items_failure envNoItems ⟨[], []⟩ rfl rfl

theorem failure_record_shape_witness :
    (syncPhotos envLedgerFailure ⟨[], []⟩).1.history =
      record_sync [] 77 0 0 0 false :=
  (failure_record_shape envLedgerFailure ⟨[], []⟩).2.2.1 rfl (by decide) rfl

/-- A run that reaches Finalizing: one fetched photo, quota 1. -/
def envHappy : SyncEnv :=
  { initShareOk := true, items := [⟨1, "a.jpg", "photo", 10, 0⟩],
    updateItemsOk := true, quota := 1, msc := 10, now := ⟨2026, 1, 77⟩,
    rng := rngHalf, dl := fun _ => true }

theorem envHappy_selected : selectedOf envHappy ⟨[], []⟩ = [1] := by
  simp [selectedOf, ledger1Of, envHappy, update_items, upsertOne,
    get_weighted_selection, weightedItems, eligible, itemWeight, sumW,
    periodOf, weekW, weekday, daysBeforeYear, leapsBefore]
  norm_num [selectIter, scanPick, rngHalf]

theorem finalize_marks_all_selected_witness :
    (syncPhotos envHappy ⟨[], []⟩).1.ledger =
      (ledger1Of envHappy ⟨[], []⟩).map (fun e =>
        if e.item_id ∈ selectedOf envHappy ⟨[], []⟩
        then shownStamp (periodOf envHappy.now) envHappy.now.ts e else e) ∧
    (∀ id ∈ selectedOf envHappy ⟨[], []⟩,
      ∀ e ∈ ledger1Of envHappy ⟨[], []⟩, e.item_id = id →
      ∃ e' ∈ (syncPhotos envHappy ⟨[], []⟩).1.ledger, e'.item_id = id ∧
        e'.times_shown = e.times_shown + 1 ∧
        e'.last_shown_week = some (periodOf envHappy.now) ∧
        e'.last_shown_ts = some envHappy.now.ts) ∧
    (syncPhotos envHappy ⟨[], []⟩).1.history =
      record_sync [] envHappy.now.ts envHappy.items.length
        (selectedOf envHappy ⟨[], []⟩).length
        (downloadCount envHappy.items envHappy.dl
          (selectedOf envHappy ⟨[], []⟩)) true :=
  finalize_marks_all_selected envHappy ⟨[], []⟩ (by decide) rngHalf_range
    rfl (by decide) rfl (by rw [envHappy_selected]; decide)

/-- A ledger holding one photo the remote no longer offers (id 5). -/
def ledgerStale : List LedgerEntry :=
  [⟨5, "old.jpg", "photo", 10, 0, 5, 5, 0, none, none⟩]

/-- A run over `ledgerStale` fetching only item 1, with quota 2: both the
stale id 5 and the fresh id 1 get selected. -/
def envStale : SyncEnv :=
  { initShareOk := true, items := [⟨1, "a.jpg", "photo", 10, 0⟩],
    updateItemsOk := true, quota := 2, msc := 10, now := ⟨2026, 1, 77⟩,
    rng := rngHalf, dl := fun _ => true }

theorem envStale_selected : selectedOf envStale ⟨ledgerStale, []⟩ = [5, 1] := by
  simp [selectedOf, ledger1Of, envStale, ledgerStale, update_items, upsertOne,
    get_weighted_selection, weightedItems, eligible, itemWeight, sumW,
    periodOf, weekW, weekday, daysBeforeYear, leapsBefore]
  norm_num [selectIter, scanPick, rngHalf]

theorem missing_item_skipped_witness :
    syncPhotos { envStale with dl := envStale.dl } ⟨ledgerStale, []⟩ =
      syncPhotos envStale ⟨ledgerStale, []⟩ ∧
    downloadCount envStale.items envStale.dl
        (selectedOf envStale ⟨ledgerStale, []⟩) =
      downloadCount envStale.items envStale.dl
        ((selectedOf envStale ⟨ledgerStale, []⟩).erase 5) ∧
    (∀ e ∈ ledger1Of envStale ⟨ledgerStale, []⟩, e.item_id = 5 →
      ∃ e' ∈ (syncPhotos envStale ⟨ledgerStale, []⟩).1.ledger,
        e'.item_id = 5 ∧ e'.times_shown = e.times_shown + 1) ∧
    (syncPhotos envStale ⟨ledgerStale, []⟩).1.history =
      record_sync [] envStale.now.ts envStale.items.length
        (selectedOf envStale ⟨ledgerStale, []⟩).length
        (downloadCount envStale.items envStale.dl
          (selectedOf envStale ⟨ledgerStale, []⟩)) true :=
  missing_item_skipped envStale ⟨ledgerStale, []⟩ 5 envStale.dl (by decide)
    rngHalf_range rfl (by decide) rfl
    (by rw [envStale_selected]; decide) (by decide) (fun _ _ => rfl)

example : weekW 2024 1 = 1 := by decide
example : weekday 2026 1 = 3 := by decide
example : weekW 2026 1 = 0 := by decide
example : isoPeriodOf ⟨2026, 1, 0⟩ = (2026, 1) := by decide
example : periodOf ⟨2026, 1, 0⟩ = (2026, 0) := by decide
